import Mathlib

/- Shallow embedding of the QSM-CI dataset grouper (src/qsm_ci/parse_bids.py)
and execution orchestrator (src/qsm_ci/run.py), together with theorems that
settle the specification's claims about them.  Filesystem walks, file reads
and process exits are passed in explicitly; everything else follows the
Python source line by line. -/

namespace QSMCI

deriving instance DecidableEq for Except

/-! ## Python-style string helpers

Core String functions such as String.startsWith go through Substring byte
positions and do not reduce in the kernel, so the Python string operations
are modelled directly on character lists. -/

/-- Does the character list start with the pattern? -/
def lsw : List Char → List Char → Bool
  | [], _ => true
  | _ :: _, [] => false
  | p :: ps, c :: cs => p == c && lsw ps cs

/-- Python str.startswith. -/
def pyStartsWith (s pat : String) : Bool := lsw pat.toList s.toList

/-- Python str.endswith. -/
def pyEndsWith (s pat : String) : Bool := lsw pat.toList.reverse s.toList.reverse

/-- Python os.path.join for two path components. -/
def pyJoin (a b : String) : String :=
  if pyStartsWith b "/" then b
  else if a = "" then b
  else if pyEndsWith a "/" then a ++ b
  else a ++ "/" ++ b

/-- Python regex word character over ASCII strings: [A-Za-z0-9_]. -/
def isWordChar (c : Char) : Bool := c.isAlphanum || c == '_'

/-- Python substring containment (the expression 'derivatives' in root). -/
def containsSub (pat : List Char) : List Char → Bool
  | [] => lsw pat []
  | c :: cs => lsw pat (c :: cs) || containsSub pat cs

/-- Python str.isdigit for ASCII strings: nonempty and all digits. -/
def pyIsDigit (s : String) : Bool := !s.toList.isEmpty && s.toList.all Char.isDigit

/-- Python int(...) on a digit string. -/
def digitsToNat (s : String) : Nat :=
  s.toList.foldl (fun n c => 10 * n + (c.toNat - '0'.toNat)) 0

/-- Python str.split(sep) for a single-character separator. -/
def splitOnChar (sep : Char) : List Char → List (List Char)
  | [] => [[]]
  | c :: rest =>
    let r := splitOnChar sep rest
    if c = sep then [] :: r
    else
      match r with
      | h :: t => (c :: h) :: t
      | [] => [[c]]

/-- Python sep.join(parts). -/
def joinWith (sep : String) : List String → String
  | [] => ""
  | [x] => x
  | x :: xs => x ++ sep ++ joinWith sep xs

/-- Python string comparison (code-point lexicographic), non-strict. -/
def strLeB : List Char → List Char → Bool
  | [], _ => true
  | _ :: _, [] => false
  | a :: as, b :: bs => if a = b then strLeB as bs else decide (a < b)

/-- Python string less-or-equal as a relation on String. -/
def strLe (a b : String) : Prop := strLeB a.toList b.toList = true

instance : DecidableRel strLe := fun a b => by unfold strLe; infer_instance

/-- Python sorted(...) on strings: stable, ascending.  insertionSort with a
non-strict comparator is stable, matching Python's Timsort contract. -/
def pySortStr (l : List String) : List String := l.insertionSort strLe

/-- Python sorted(...) on numbers (EchoTime values, modelled as rationals). -/
def pySortRat (l : List ℚ) : List ℚ := l.insertionSort (· ≤ ·)

/-! ## The regex searches of parse_bids.py

Each scanner mirrors one concrete re.search pattern, including the leftmost
match rule and greedy backtracking of the capture groups. -/

/-- Largest index of an underscore in the list, if any. -/
def lastUsIdx : List Char → Option Nat
  | [] => none
  | c :: cs =>
    match lastUsIdx cs with
    | some k => some (k + 1)
    | none => if c == '_' then some 0 else none

/-- Greedy backtracking capture for a group of shape (\w+) that must be
followed by an underscore, applied to the maximal word run w: the longest
nonempty strict prefix of w whose next character inside w is an underscore
(the character after all of w is a non-word character, hence never an
underscore). -/
def greedyUsCapture (w : List Char) : Option (List Char) :=
  match lastUsIdx w with
  | some k => if 1 ≤ k then some (w.take k) else none
  | none => none

/-- re.search of a marker followed by (\w+) with no follower constraint, as in
r'sub-(\w+)', r'ses-(\w+)' and r'_ses-(\w+)': at the leftmost position where
the marker matches and at least one word character follows, capture the
maximal word run. -/
def scanTok (marker : List Char) : List Char → Option String
  | [] => none
  | c :: cs =>
    if lsw marker (c :: cs) then
      let w := (List.drop marker.length (c :: cs)).takeWhile isWordChar
      if w.isEmpty then scanTok marker cs else some (String.mk w)
    else scanTok marker cs

/-- re.search(r'_(?:acq|run)-(\w+)_', file): leftmost marker occurrence at
which the greedy capture succeeds. -/
def scanAcqRun : List Char → Option String
  | [] => none
  | c :: cs =>
    if lsw "_acq-".toList (c :: cs) || lsw "_run-".toList (c :: cs) then
      match greedyUsCapture ((List.drop 5 (c :: cs)).takeWhile isWordChar) with
      | some cap => some (String.mk cap)
      | none => scanAcqRun cs
    else scanAcqRun cs

/-- re.search of a marker followed by (\d+) and a mandatory underscore, as in
r'_run-(\d+)_' and r'_echo-(\d+)_'.  Digits contain no underscore, so the
greedy capture is the full digit run, and the match at a position succeeds
exactly when that run is nonempty and followed by an underscore. -/
def scanNumTok (marker : List Char) : List Char → Option String
  | [] => none
  | c :: cs =>
    if lsw marker (c :: cs) then
      let rest := List.drop marker.length (c :: cs)
      let d := rest.takeWhile Char.isDigit
      if !d.isEmpty && lsw ['_'] (List.drop d.length rest) then some (String.mk d)
      else scanNumTok marker cs
    else scanNumTok marker cs

/-- re.search(r'_part-(mag|phase)_', file). -/
def scanPart : List Char → Option String
  | [] => none
  | c :: cs =>
    if lsw "_part-mag_".toList (c :: cs) then some "mag"
    else if lsw "_part-phase_".toList (c :: cs) then some "phase"
    else scanPart cs

/-- re.search(r'_MEGRE\.(nii|json)', file). -/
def scanMEGRE : List Char → Option String
  | [] => none
  | c :: cs =>
    if lsw "_MEGRE.nii".toList (c :: cs) then some "nii"
    else if lsw "_MEGRE.json".toList (c :: cs) then some "json"
    else scanMEGRE cs

/-- re.search(r'derivatives/([^/]+)/', root): the capture cannot cross a
slash, so the greedy capture is the full slash-free run, which must be
followed by a slash. -/
def scanDerivSoftware : List Char → Option String
  | [] => none
  | c :: cs =>
    if lsw "derivatives/".toList (c :: cs) then
      let r := (List.drop 12 (c :: cs)).takeWhile (fun ch => ch != '/')
      if !r.isEmpty && lsw ['/'] (List.drop (12 + r.length) (c :: cs)) then
        some (String.mk r)
      else scanDerivSoftware cs
    else scanDerivSoftware cs

/-- Greedy backtracking for ([^_]+)(?=\.(nii|nii\.gz)) at a fixed position:
longest nonempty initial segment of rest (of length at most the maximal
underscore-free run, passed as the fuel) after which the text starts with
".nii" (the first lookahead alternative already succeeds whenever the second
would). -/
def bestNiiSplit (rest : List Char) : Nat → Option (List Char)
  | 0 => none
  | k + 1 =>
    if lsw ".nii".toList (List.drop (k + 1) rest) then some (rest.take (k + 1))
    else bestNiiSplit rest k

/-- re.search(r'_([^_]+)(?=\.(nii|nii\.gz))', file). -/
def scanDerivType : List Char → Option String
  | [] => none
  | c :: cs =>
    if c == '_' then
      match bestNiiSplit cs ((cs.takeWhile (fun ch => ch != '_')).length) with
      | some cap => some (String.mk cap)
      | none => scanDerivType cs
    else scanDerivType cs

/-- Subject extraction re.search(r'sub-(\w+)', root). -/
def searchSub (s : String) : Option String := scanTok "sub-".toList s.toList

/-- Session-from-path extraction re.search(r'ses-(\w+)', root). -/
def searchSes (s : String) : Option String := scanTok "ses-".toList s.toList

/-- Session-from-filename extraction re.search(r'_ses-(\w+)', file). -/
def searchSesFile (s : String) : Option String := scanTok "_ses-".toList s.toList

/-- Acquisition extraction re.search(r'_(?:acq|run)-(\w+)_', file). -/
def searchAcqRun (s : String) : Option String := scanAcqRun s.toList

/-- Run extraction re.search(r'_run-(\d+)_', file). -/
def searchRun (s : String) : Option String := scanNumTok "_run-".toList s.toList

/-- Echo extraction re.search(r'_echo-(\d+)_', file). -/
def searchEcho (s : String) : Option String := scanNumTok "_echo-".toList s.toList

/-- Part extraction re.search(r'_part-(mag|phase)_', file). -/
def searchPart (s : String) : Option String := scanPart s.toList

/-- Suffix extraction re.search(r'_MEGRE\.(nii|json)', file). -/
def searchMEGRE (s : String) : Option String := scanMEGRE s.toList

/-- Producing-software extraction re.search(r'derivatives/([^/]+)/', root). -/
def searchSoftware (s : String) : Option String := scanDerivSoftware s.toList

/-- Derivative-type extraction re.search(r'_([^_]+)(?=\.(nii|nii\.gz))', file). -/
def searchDerivType (s : String) : Option String := scanDerivType s.toList

/-- The test 'derivatives' in root of parse_bids.py line 36. -/
def hasDerivSub (s : String) : Bool := containsSub "derivatives".toList s.toList

/-! ## Data model of parse_bids.parse_bids_directory

JSON sidecar metadata is modelled by the four fields the code reads; numbers
are rationals.  Reading a sidecar is an explicit function from the full path
to Except, so that an unreadable or invalid file is an exception, exactly as
an uncaught error from open/json.load would be. -/

/-- The sidecar fields read by parse_bids.py lines 139-147. -/
structure Metadata where
  EchoTime : Option ℚ := none
  MagneticFieldStrength : Option ℚ := none
  B0_direction : Option (List ℚ) := none
  B0_dir : Option (List ℚ) := none
deriving DecidableEq

/-- One entry of the temp_derivatives queue (parse_bids.py lines 83-90). -/
structure DerivEntry where
  software_name : String
  dtype : String
  session : Option String
  acquisition : Option String
  run : Option String
  path : String
deriving DecidableEq

/-- One group dictionary (parse_bids.py lines 111-124).  The optional mask
key is added at derivative resolution; Derivatives is an insertion-ordered
mapping software name to artifact type to path list. -/
structure Group where
  Subject : String
  Session : Option String
  Acquisition : Option String
  Run : Option String
  phase_nii : List String := []
  phase_json : List String := []
  mag_nii : List String := []
  mag_json : List String := []
  EchoTime : List ℚ := []
  MagneticFieldStrength : Option ℚ := none
  Derivatives : List (String × List (String × List String)) := []
  B0_dir : List ℚ := [0, 0, 1]
  mask : Option String := none
deriving DecidableEq

/-- One os.walk step: a directory path and the unordered file listing. -/
structure DirEntry where
  root : String
  files : List String
deriving DecidableEq

/-- The mutable state of the walk: the groups list and the pending
derivatives, keyed by subject in insertion order. -/
structure ParseState where
  groups : List Group := []
  temp : List (String × List DerivEntry) := []
deriving DecidableEq

/-- Fold over a list in the Except monad, stopping at the first error: the
shape of every loop in parse_bids.py once sidecar reads may raise. -/
def exFold {σ α ε : Type} (f : σ → α → Except ε σ) : σ → List α → Except ε σ
  | s, [] => .ok s
  | s, a :: l =>
    match f s a with
    | .ok s' => exFold f s' l
    | .error e => .error e

/-- b0_dir_map.get(acquisition, [0,0,1]) of parse_bids.py line 123; the
acquisition key may be None, which is absent from the map. -/
def b0Lookup (b0map : List (String × List ℚ)) : Option String → List ℚ
  | some a =>
    match b0map.lookup a with
    | some v => v
    | none => [0, 0, 1]
  | none => [0, 0, 1]

/-- A fresh group dictionary (parse_bids.py lines 111-124). -/
def newGroup (b0map : List (String × List ℚ)) (subject : String)
    (session acquisition run : Option String) : Group :=
  { Subject := subject, Session := session, Acquisition := acquisition,
    Run := run, B0_dir := b0Lookup b0map acquisition }

/-- list.append guarded by a membership test, as in parse_bids.py
lines 131-132. -/
def appendNew (x : String) (l : List String) : List String :=
  if x ∈ l then l else l ++ [x]

/-- parse_bids.py lines 139-140: the EchoTime is appended when truthy and
not yet present. -/
def applyEcho (md : Metadata) (g : Group) : Group :=
  match md.EchoTime with
  | some v => if v ≠ 0 ∧ v ∉ g.EchoTime then { g with EchoTime := g.EchoTime ++ [v] } else g
  | none => g

/-- parse_bids.py lines 141-142: MagneticFieldStrength is set only while
still None, so the first non-null sidecar value wins. -/
def applyMFS (md : Metadata) (g : Group) : Group :=
  if g.MagneticFieldStrength = none then
    { g with MagneticFieldStrength := md.MagneticFieldStrength }
  else g

/-- parse_bids.py lines 143-147: B0_direction, else B0_dir, overwrites the
field direction. -/
def applyB0 (md : Metadata) (g : Group) : Group :=
  match md.B0_direction with
  | some b => { g with B0_dir := b }
  | none =>
    match md.B0_dir with
    | some b => { g with B0_dir := b }
    | none => g

/-- The metadata updates of parse_bids.py lines 139-147, in source order. -/
def applyMeta (md : Metadata) (g : Group) : Group :=
  applyB0 md (applyMFS md (applyEcho md g))

/-- The per-file re-sorting of parse_bids.py lines 168-173. -/
def sortGroupLists (g : Group) : Group :=
  { g with EchoTime := pySortRat g.EchoTime,
           mag_nii := pySortStr g.mag_nii, mag_json := pySortStr g.mag_json,
           phase_nii := pySortStr g.phase_nii, phase_json := pySortStr g.phase_json }

/-- Opening and scanning a sidecar (parse_bids.py with open/json.load plus
the metadata updates): the read can raise. -/
def addJsonRead (readJson : String → Except String Metadata) (fullPath : String)
    (g : Group) : Except String Group :=
  match readJson fullPath with
  | .ok md => .ok (applyMeta md g)
  | .error e => .error e

/-- Adding one file to a group (parse_bids.py lines 128-166): nii paths are
appended if new; a new json path is appended and its sidecar read, which can
raise. -/
def addFileToGroup (readJson : String → Except String Metadata)
    (path fullPath file part : String) (g : Group) : Except String Group :=
  if part = "mag" then
    if pyEndsWith file ".nii" || pyEndsWith file ".nii.gz" then
      .ok { g with mag_nii := appendNew path g.mag_nii }
    else if pyEndsWith file ".json" then
      if path ∈ g.mag_json then .ok g
      else addJsonRead readJson fullPath { g with mag_json := g.mag_json ++ [path] }
    else .ok g
  else if part = "phase" then
    if pyEndsWith file ".nii" || pyEndsWith file ".nii.gz" then
      .ok { g with phase_nii := appendNew path g.phase_nii }
    else if pyEndsWith file ".json" then
      if path ∈ g.phase_json then .ok g
      else addJsonRead readJson fullPath { g with phase_json := g.phase_json ++ [path] }
    else .ok g
  else .ok g

/-- Does this group carry the composite key (parse_bids.py lines 104-107)? -/
def keyMatches (subject : String) (session acquisition run : Option String)
    (g : Group) : Bool :=
  decide (g.Subject = subject) && decide (g.Session = session) &&
    decide (g.Acquisition = acquisition) && decide (g.Run = run)

/-- Find the first group with the composite key and add the file to it, else
create the group at the end of the list, as parse_bids.py lines 104-126 with
the list append; the updated group is re-sorted (lines 168-173). -/
def updateGroups (readJson : String → Except String Metadata)
    (b0map : List (String × List ℚ)) (subject : String)
    (session acquisition run : Option String)
    (path fullPath file part : String) : List Group → Except String (List Group)
  | [] =>
    match addFileToGroup readJson path fullPath file part
        (newGroup b0map subject session acquisition run) with
    | .ok g => .ok [sortGroupLists g]
    | .error e => .error e
  | g :: rest =>
    if keyMatches subject session acquisition run g then
      match addFileToGroup readJson path fullPath file part g with
      | .ok g' => .ok (sortGroupLists g' :: rest)
      | .error e => .error e
    else
      match updateGroups readJson b0map subject session acquisition run path fullPath file part rest with
      | .ok rest' => .ok (g :: rest')
      | .error e => .error e

/-- Append a derivative entry under its subject in the insertion-ordered
temp_derivatives dictionary (parse_bids.py lines 81-90). -/
def tempAppend (subject : String) (e : DerivEntry) :
    List (String × List DerivEntry) → List (String × List DerivEntry)
  | [] => [(subject, [e])]
  | (s, es) :: rest =>
    if s = subject then (s, es ++ [e]) :: rest
    else (s, es) :: tempAppend subject e rest

/-- Processing of one file inside the walk (parse_bids.py lines 45-173).
The Option String component is the session variable, which the loop mutates
and which therefore leaks from one file to the later files of the same
directory.

The gate at line 71 (no echo, no part, no MEGRE suffix, or a derivatives
path) opens a block whose body acts only for derivative files: those are
queued (when the software and artifact-type patterns parse) and the
continue at line 91, which sits inside the is_derivative branch, skips the
rest of the loop for them.  For a non-derivative file the block body does
nothing and contains no continue, so control always falls through to the
MEGRE processing of lines 93-173 whether or not the tokens are present:
the unused echo number defaults to 1 (line 97) and the part to mag
(line 102), which is how a file such as sub-1_T1w.nii still creates a
group and lands in mag_nii, and its json sidecar is still opened. -/
def processFile (readJson : String → Except String Metadata)
    (b0map : List (String × List ℚ)) (root relRoot : String) (isDeriv : Bool)
    (acc : Option String × ParseState) (file : String) :
    Except String (Option String × ParseState) :=
  let (session0, st) := acc
  if !(pyEndsWith file ".nii" || pyEndsWith file ".json" || pyEndsWith file ".nii.gz") then
    .ok acc
  else
    match searchSub root with
    | none => .ok acc
    | some subject =>
      let session := match session0 with
        | none => searchSesFile file
        | some s => some s
      let acquisition := searchAcqRun file
      let run := searchRun file
      let partTag := searchPart file
      if isDeriv then
        match searchSoftware root with
        | some software =>
          match searchDerivType file with
          | some dtype =>
            let entry : DerivEntry :=
              { software_name := software, dtype := dtype, session := session,
                acquisition := acquisition, run := run, path := pyJoin relRoot file }
            .ok (session, { st with temp := tempAppend subject entry st.temp })
          | none => .ok (session, st)
        | none => .ok (session, st)
      else
        match updateGroups readJson b0map subject session acquisition run
            (pyJoin relRoot file) (pyJoin root file) file (partTag.getD "mag") st.groups with
        | .ok gs => .ok (session, { st with groups := gs })
        | .error e => .error e

/-- The rel_root computation of parse_bids.py line 35: replace the first
path component of root by bids. -/
def relRootOf (root : String) : String :=
  pyJoin "bids" (joinWith "/" (((splitOnChar '/' root.toList).map String.mk).drop 1))

/-- Processing of one os.walk step (parse_bids.py lines 33-173): the session
is first extracted from the directory path, the files are sorted, then each
file is processed. -/
def processRoot (readJson : String → Except String Metadata)
    (b0map : List (String × List ℚ)) (st : ParseState) (e : DirEntry) :
    Except String ParseState :=
  match exFold (processFile readJson b0map e.root (relRootOf e.root) (hasDerivSub e.root))
      (searchSes e.root, st) (pySortStr e.files) with
  | .ok acc => .ok acc.2
  | .error err => .error err

/-! ## Derivative resolution (parse_bids.py lines 175-228)

Python mutates group dictionaries through shared references held by the
filtered local list subject_groups, so groups are addressed by position. -/

/-- Pair each group with its position in the groups list. -/
def enumIdx (n : Nat) : List Group → List (Nat × Group)
  | [] => []
  | g :: gs => (n, g) :: enumIdx (n + 1) gs

/-- Apply a mutation to the group at one position. -/
def updAt (i : Nat) (f : Group → Group) : List Group → List Group
  | [] => []
  | g :: gs =>
    match i with
    | 0 => f g :: gs
    | n + 1 => g :: updAt n f gs

/-- The sort key of parse_bids.py line 183: int(acquisition) when the
acquisition is truthy and all digits, else 999. -/
def acqKeyNum (g : Group) : Nat :=
  match g.Acquisition with
  | some a => if pyIsDigit a then digitsToNat a else 999
  | none => 999

/-- subject_groups.sort(key=...) of line 183: Python sort is stable
ascending, as is insertionSort with a non-strict comparator. -/
def sortByAcq (l : List (Nat × Group)) : List (Nat × Group) :=
  l.insertionSort (fun a b => acqKeyNum a.2 ≤ acqKeyNum b.2)

/-- Insert a path under an artifact type, creating the list and skipping
duplicates (parse_bids.py lines 197-200). -/
def addTypePath (dtype path : String) : List (String × List String) → List (String × List String)
  | [] => [(dtype, [path])]
  | (t, ps) :: rest =>
    if t = dtype then (t, appendNew path ps) :: rest
    else (t, ps) :: addTypePath dtype path rest

/-- Insert a path under a software name and artifact type (parse_bids.py
lines 195-200). -/
def addSwDeriv (sw dtype path : String) :
    List (String × List (String × List String)) → List (String × List (String × List String))
  | [] => [(sw, addTypePath dtype path [])]
  | (s, ts) :: rest =>
    if s = sw then (s, addTypePath dtype path ts) :: rest
    else (s, ts) :: addSwDeriv sw dtype path rest

/-- Record one derivative in a group's Derivatives mapping. -/
def addDerivToGroup (d : DerivEntry) (g : Group) : Group :=
  { g with Derivatives := addSwDeriv d.software_name d.dtype d.path g.Derivatives }

/-- group, with the mask key set to the path (lines 205 and 225). -/
def setMask (p : String) (g : Group) : Group := { g with mask := some p }

/-- Resolution of a single pending derivative against the groups
(parse_bids.py lines 178-228): collect the subject's groups with raw
magnitude data, sort them by numeric acquisition; when the first group's
acquisition is numeric (COSMOS data) attach the derivative to that first
group and broadcast a mask to all of them, otherwise attach (and set the
mask) only on exact session/acquisition/run matches. -/
def resolveOne (subject : String) (gs : List Group) (d : DerivEntry) : List Group :=
  let subjectGroups := (enumIdx 0 gs).filter
    (fun p => decide (p.2.Subject = subject) && !p.2.mag_nii.isEmpty)
  match sortByAcq subjectGroups with
  | [] => gs
  | first :: restSorted =>
    let isCosmos :=
      match first.2.Acquisition with
      | some a => pyIsDigit a
      | none => false
    if isCosmos then
      let gs1 := updAt first.1 (addDerivToGroup d) gs
      if d.dtype = "mask" then
        ((first :: restSorted).map Prod.fst).foldl
          (fun acc i => updAt i (setMask d.path) acc) gs1
      else gs1
    else
      let matching := (first :: restSorted).filter
        (fun p => decide (p.2.Session = d.session) &&
          decide (p.2.Acquisition = d.acquisition) && decide (p.2.Run = d.run))
      (matching.map Prod.fst).foldl
        (fun acc i => updAt i
          (fun g => if d.dtype = "mask" then setMask d.path (addDerivToGroup d g)
                    else addDerivToGroup d g) acc) gs

/-- The two nested loops of parse_bids.py lines 176-177. -/
def resolveDerivatives (gs : List Group) :
    List (String × List DerivEntry) → List Group
  | [] => gs
  | (s, ds) :: rest => resolveDerivatives (ds.foldl (resolveOne s) gs) rest

/-- The group filter of parse_bids.py line 231: keep groups with raw
magnitude data or with no recorded derivatives. -/
def keepGroup (g : Group) : Bool := !g.mag_nii.isEmpty || g.Derivatives.isEmpty

/-- The final sort key of parse_bids.py line 235, with the empty string for
falsy optional fields. -/
def key4 (g : Group) : String × String × String × String :=
  (g.Subject, g.Session.getD "", g.Acquisition.getD "", g.Run.getD "")

/-- Python tuple comparison on the four string components: lexicographic,
strict at the first differing component (where, the components being
unequal, strict and non-strict string comparison agree). -/
def key4Le (a b : String × String × String × String) : Bool :=
  if a.1 = b.1 then
    if a.2.1 = b.2.1 then
      if a.2.2.1 = b.2.2.1 then strLeB a.2.2.2.toList b.2.2.2.toList
      else strLeB a.2.2.1.toList b.2.2.1.toList
    else strLeB a.2.1.toList b.2.1.toList
  else strLeB a.1.toList b.1.toList

/-- The order the final sorted(...) of parse_bids.py line 235 uses. -/
def groupOrder (g h : Group) : Prop := key4Le (key4 g) (key4 h) = true

instance : DecidableRel groupOrder := fun g h => by unfold groupOrder; infer_instance

/-- parse_bids.parse_bids_directory as a function of the walk sequence, the
sidecar reader and the qsm-forward-params B0 map: run the walk, resolve the
pending derivatives, drop derivative-only groups, and sort by the composite
key. -/
def parse_bids_directory (readJson : String → Except String Metadata)
    (b0map : List (String × List ℚ)) (walk : List DirEntry) :
    Except String (List Group) :=
  match exFold (processRoot readJson b0map) {} walk with
  | .ok st =>
    .ok (((resolveDerivatives st.groups st.temp).filter keepGroup).insertionSort groupOrder)
  | .error e => .error e

/-! ## Data model of qsm_ci/run.py

The input document is a Python dict, modelled as an association list whose
values may be None, so that the lookup of a missing key and the lookup of a
None value both read back as None through dict.get. -/

/-- A WorkUnit input document as passed to the orchestrator. -/
abbrev InputDict := List (String × Option String)

/-- Python input_json.get(key). -/
def dget (d : InputDict) (k : String) : Option String :=
  match d with
  | [] => none
  | (k', v) :: rest => if k' = k then v else dget rest k

/-- Python truthiness of an optional string: None and the empty string are
falsy. -/
def pyTruthy : Option String → Bool
  | none => false
  | some s => !s.toList.isEmpty

/-- Python f-string rendering of a possibly-None value. -/
def pyStr : Option String → String
  | none => "None"
  | some s => s

/-- construct_bids_derivative_path of run.py lines 409-420. -/
def construct_bids_derivative_path (input_json : InputDict)
    (algo_name work_dir : String) : String :=
  let subject := dget input_json "Subject"
  let session := dget input_json "Session"
  let path := pyJoin (pyJoin (pyJoin (pyJoin work_dir "bids") "derivatives") algo_name)
    ("sub-" ++ pyStr subject)
  let path := if pyTruthy session then pyJoin path ("ses-" ++ pyStr session) else path
  pyJoin path "anat"

/-- construct_bids_filename of run.py lines 422-439.  The acquisition is
read from the key Acq, exactly as in the source. -/
def construct_bids_filename (input_json : InputDict) (nifti_file : String) : String :=
  let subject := dget input_json "Subject"
  let session := dget input_json "Session"
  let acq := dget input_json "Acq"
  let run := dget input_json "Run"
  let filename := "sub-" ++ pyStr subject
  let filename := if pyTruthy session then filename ++ "_ses-" ++ pyStr session else filename
  let filename := if pyTruthy acq then filename ++ "_acq-" ++ pyStr acq else filename
  let filename := if pyTruthy run then filename ++ "_run-" ++ pyStr run else filename
  filename ++ "_Chimap." ++
    joinWith "." (((splitOnChar '.' nifti_file.toList).map String.mk).drop 1)

/-- Python nifti_file.replace('.gz', ''): every occurrence is removed,
left to right. -/
def removeGz : List Char → List Char
  | [] => []
  | '.' :: 'g' :: 'z' :: rest => removeGz rest
  | c :: cs => c :: removeGz cs

/-- What handle_output does to the filesystem: the moves performed (source,
destination) and the warnings logged. -/
structure HarvestResult where
  moves : List (String × String)
  warnings : List String
deriving DecidableEq

/-- handle_output of run.py lines 386-407: outputFiles is the glob listing
of the output area; gzipped artifacts are decompressed (the list entry loses
its .gz), an empty listing is only a logged warning, and every remaining
file is moved to the BIDS derivative destination. -/
def handle_output (work_dir algo_name : String) (input_json : InputDict)
    (outputFiles : List String) : HarvestResult :=
  let nifti_files := outputFiles.map
    (fun f => if pyEndsWith f ".gz" then String.mk (removeGz f.toList) else f)
  if nifti_files.isEmpty then
    { moves := [], warnings := ["No NIfTI files found in " ++ pyJoin work_dir "output" ++ "."] }
  else
    { moves := nifti_files.map (fun nf =>
        (nf, pyJoin (construct_bids_derivative_path input_json algo_name work_dir)
          (construct_bids_filename input_json nf))),
      warnings := [] }

/-- Result of one backend execution: a normal return carrying the harvest,
or an uncaught Python exception. -/
inductive ExecOutcome
  | ok (result : HarvestResult)
  | raised (msg : String)
deriving DecidableEq

/-- The tail of run_docker_algo (run.py lines 157-164): logs are streamed,
the container.wait() exit code is bound to a variable that is never
inspected, and handle_output always runs. -/
def run_docker_algo (work_dir algo_name : String) (input_json : InputDict)
    (exit_code : Int) (outputFiles : List String) : ExecOutcome :=
  let _ := exit_code
  ExecOutcome.ok (handle_output work_dir algo_name input_json outputFiles)

/-- The tail of run_apptainer_algo (run.py lines 376-384): a nonzero return
code raises RuntimeError before any harvesting happens. -/
def run_apptainer_algo (work_dir algo_name : String) (input_json : InputDict)
    (returncode : Int) (outputFiles : List String) : ExecOutcome :=
  if returncode ≠ 0 then
    .raised ("Apptainer run failed with code " ++ toString returncode)
  else
    .ok (handle_output work_dir algo_name input_json outputFiles)

/-! ## setup_environment and the top-level flow of run.py -/

/-- The images and resource hints parsed from main.sh directives
(run.py lines 50-57 defaults). -/
structure AlgoConfig where
  docker_image : String := "ubuntu:latest"
  apptainer_image : String := "docker://ubuntu:latest"
  tinyrange_image : Option String := none
  memory_mb : Int := 2048
  cpu_cores : Int := 4
  storage_mb : Int := 4096
deriving DecidableEq

/-- Python str.strip. -/
def pyStrip (s : String) : String :=
  let ws := fun c : Char =>
    c == ' ' || c == '\t' || c == '\n' || c == '\r' || c == '\x0b' || c == '\x0c'
  String.mk (((s.toList.dropWhile ws).reverse.dropWhile ws).reverse)

/-- Python int(...) on a directive value: optional sign and digits after
stripping, anything else raises ValueError. -/
def pyInt (s : String) : Except String Int :=
  match (pyStrip s).toList with
  | '-' :: ds =>
    if !ds.isEmpty && ds.all Char.isDigit then .ok (-(digitsToNat (String.mk ds) : Int))
    else .error ("invalid literal for int() with base 10: " ++ s)
  | ds =>
    if !ds.isEmpty && ds.all Char.isDigit then .ok ((digitsToNat (String.mk ds) : Int))
    else .error ("invalid literal for int() with base 10: " ++ s)

/-- Python str.splitlines on newline-separated content. -/
def pySplitlines (s : String) : List String :=
  let r := (splitOnChar '\n' s.toList).map String.mk
  if r.getLast? = some "" then r.dropLast else r

/-- Python line.split('=')[1]: the text between the first and second equals
sign (the callers guarantee an equals sign is present). -/
def splitEqSecond (line : String) : String :=
  ((splitOnChar '=' line.toList).map String.mk).getD 1 ""

/-- Python line.split('=', 1)[1]: everything after the first equals sign. -/
def afterFirstEq (line : String) : String :=
  String.mk ((line.toList.dropWhile (fun c => c != '=')).drop 1)

/-- One iteration of the directive scan (run.py lines 59-71): the two image
directives are independent if statements, the TINYRANGE directives form an
if/elif chain, and the int(...) conversions can raise. -/
def parseDirectiveLine (cfg : AlgoConfig) (line : String) : Except String AlgoConfig :=
  let cfg := if pyStartsWith line "#DOCKER_IMAGE=" then
    { cfg with docker_image := pyStrip (splitEqSecond line) } else cfg
  let cfg := if pyStartsWith line "#SINGULARITY_IMAGE=" then
    { cfg with apptainer_image := pyStrip (splitEqSecond line) } else cfg
  if pyStartsWith line "#TINYRANGE_IMAGE=" then
    .ok { cfg with tinyrange_image := some (pyStrip (splitEqSecond line)) }
  else if pyStartsWith line "#TINYRANGE_MEMORY_MB=" then
    match pyInt (afterFirstEq line) with
    | .ok n => .ok { cfg with memory_mb := n }
    | .error e => .error e
  else if pyStartsWith line "#TINYRANGE_CPU_CORES=" then
    match pyInt (afterFirstEq line) with
    | .ok n => .ok { cfg with cpu_cores := n }
    | .error e => .error e
  else if pyStartsWith line "#TINYRANGE_STORAGE_MB=" then
    match pyInt (afterFirstEq line) with
    | .ok n => .ok { cfg with storage_mb := n }
    | .error e => .error e
  else .ok cfg

/-- The directive scan over the whole script. -/
def parseDirectives (content : String) : Except String AlgoConfig :=
  exFold parseDirectiveLine {} (pySplitlines content)

/-- Python truthiness of a plain string. -/
def pyTruthyStr (s : String) : Bool := !s.toList.isEmpty

/-- The failure-relevant part of setup_environment (run.py lines 33-108):
a missing main.sh raises FileNotFoundError before anything else happens;
for the apptainer engine a falsy image raises ValueError; the tinyrange
engine falls back to the docker image when no TINYRANGE_IMAGE directive is
given.  Directory copying and docker image pulls are filesystem and network
effects outside the model. -/
def setup_environment (mainScript : Option String) (container_engine : String) :
    Except String AlgoConfig :=
  match mainScript with
  | none => .error "main.sh does not exist."
  | some content =>
    match parseDirectives content with
    | .error e => .error e
    | .ok cfg =>
      if container_engine = "apptainer" ∧ ¬ pyTruthyStr cfg.apptainer_image then
        .error "Apptainer image is not specified in the algorithm script."
      else if container_engine = "tinyrange" ∧ cfg.tinyrange_image = none then
        .ok { cfg with tinyrange_image := some cfg.docker_image }
      else .ok cfg

/-- The top-level flow of run.py main (lines 441-475) for the docker
engine: setup_environment runs before any work unit, so a configuration
error aborts with no execution; otherwise each work unit (its input
document, the container exit code and the output listing it produces) is
run in order. -/
def main_docker (mainScript : Option String) (container_engine : String)
    (work_dir algo_name : String)
    (units : List (InputDict × Int × List String)) :
    Except String (List ExecOutcome) :=
  match setup_environment mainScript container_engine with
  | .error e => .error e
  | .ok _ => .ok (units.map (fun u => run_docker_algo work_dir algo_name u.1 u.2.1 u.2.2))

/-- Equality of a Derivatives mapping is decidable; naming the instance
keeps later instance searches over Except values of group projections
small. -/
instance : DecidableEq (List (String × List (String × List String))) :=
  inferInstance

/-- Equality of the (Acquisition, Run, volume count, mask, Derivatives)
projection of a group is decidable. -/
instance : DecidableEq (Option String × Option String × Nat × Option String ×
    List (String × List (String × List String))) :=
  inferInstance

/-! ## Invariants stated about the grouper -/

/-- The composite key of a group. -/
def keyOf (g : Group) : String × Option String × Option String × Option String :=
  (g.Subject, g.Session, g.Acquisition, g.Run)

/-- The per-group invariant: echo times are sorted ascending without
duplicates, and a group with a run always has an acquisition. -/
def elemInv (g : Group) : Prop :=
  List.Sorted (· ≤ ·) g.EchoTime ∧ g.EchoTime.Nodup ∧
    (g.Run.isSome → g.Acquisition.isSome)

/-- The walk-state invariant: composite keys are pairwise distinct and
every group satisfies the per-group invariant. -/
def stInv (st : ParseState) : Prop :=
  (st.groups.map keyOf).Nodup ∧ ∀ g ∈ st.groups, elemInv g

/-- First non-null value of a sequence of optional sidecar values. -/
def firstSome : List (Option ℚ) → Option ℚ
  | [] => none
  | some v :: _ => some v
  | none :: rest => firstSome rest

/-! ## Concrete fixtures used by the theorems below -/

/-- A WorkUnit input document with the identity used throughout the spec's
orchestrator examples. -/
def unitX : InputDict :=
  [("Subject", some "1"), ("Session", none), ("Acquisition", some "A"), ("Run", some "1")]

/-- A sidecar reader for which every file is valid but empty. -/
def rjValid : String → Except String Metadata := fun _ => .ok {}

/-- A sidecar reader for which every file fails to parse, as json.load does
on invalid content. -/
def rjInvalid : String → Except String Metadata :=
  fun _ => .error "Expecting value: line 1 column 1 (char 0)"

/-- A walk with a subject owning a sidecar and a second independent
subject. -/
def walkTwoSubjects : List DirEntry :=
  [⟨"data/sub-1/anat", ["sub-1_echo-1_part-mag_MEGRE.json",
                        "sub-1_echo-1_part-mag_MEGRE.nii"]⟩,
   ⟨"data/sub-2/anat", ["sub-2_echo-1_part-mag_MEGRE.nii"]⟩]

/-- A sidecar reader whose field strength differs between the two
directories of walkSplitA. -/
def rjSplit : String → Except String Metadata := fun p =>
  if p = "data/sub-1/anat/sub-1_echo-1_part-mag_MEGRE.json" then
    .ok { MagneticFieldStrength := some 3 }
  else
    .ok { MagneticFieldStrength := some 7 }

/-- First directory of the split-subject tree: a magnitude volume and its
sidecar. -/
def entSplitA : DirEntry :=
  ⟨"data/sub-1/anat", ["sub-1_echo-1_part-mag_MEGRE.json",
                       "sub-1_echo-1_part-mag_MEGRE.nii"]⟩

/-- Second directory of the split-subject tree: another sidecar of the same
group. -/
def entSplitB : DirEntry :=
  ⟨"data/sub-1/anat2", ["sub-1_echo-2_part-mag_MEGRE.json"]⟩

/-- A one-file walk of a single subject. -/
def walkOne : List DirEntry :=
  [⟨"data/sub-1/anat", ["sub-1_echo-1_part-mag_MEGRE.nii"]⟩]

/-- The single group the one-file walk produces. -/
def groupOne : Group :=
  { Subject := "1", Session := none, Acquisition := none, Run := none,
    mag_nii := ["bids/sub-1/anat/sub-1_echo-1_part-mag_MEGRE.nii"] }

/-- A walk whose only file carries two run-shaped tokens, so that the greedy
acquisition capture differs from the run label. -/
def walkGreedy : List DirEntry :=
  [⟨"data/sub-1/anat", ["sub-1_run-ab_y_run-1_echo-1_part-mag_MEGRE.nii"]⟩]

/-- The group the greedy walk produces: the run is 1 but the acquisition
capture is ab_y. -/
def groupGreedy : Group :=
  { Subject := "1", Session := none, Acquisition := some "ab_y", Run := some "1",
    mag_nii := ["bids/sub-1/anat/sub-1_run-ab_y_run-1_echo-1_part-mag_MEGRE.nii"] }

/-- A raw group with one magnitude volume, used in the broadcast scenarios:
the acquisition and run are the given label, as parse_bids produces for a
file with a run token and no acq token. -/
def runGroup (s p a : String) : Group :=
  { Subject := s, Session := none, Acquisition := some a, Run := some a,
    mag_nii := [p] }

/-- A subject-level derivative entry with no session, acquisition or run
disambiguator. -/
def subjDeriv (sw t mp : String) : DerivEntry :=
  { software_name := sw, dtype := t, session := none, acquisition := none,
    run := none, path := mp }

/-- A raw group whose acquisition label differs from its run label, as a
file carrying both an acq token and a run token produces. -/
def acqRunGroup (s p a r : String) : Group :=
  { Subject := s, Session := none, Acquisition := some a, Run := some r,
    mag_nii := [p] }

/-- Three runs of one subject whose files carry the non-numeric acquisition
token sim, plus a subject-level mask derivative with no disambiguator. -/
def walkSim : List DirEntry :=
  [⟨"data/sub-1/anat",
    ["sub-1_acq-sim_run-1_echo-1_part-mag_MEGRE.nii",
     "sub-1_acq-sim_run-2_echo-1_part-mag_MEGRE.nii",
     "sub-1_acq-sim_run-3_echo-1_part-mag_MEGRE.nii"]⟩,
   ⟨"data/derivatives/fsl/sub-1/anat", ["sub-1_mask.nii.gz"]⟩]

/-- A main.sh whose SINGULARITY_IMAGE directive sets an empty image. -/
def mainShEmptyImage : String := "#SINGULARITY_IMAGE=\necho hello"

/-- The configuration that script parses to: the apptainer image is the
empty string. -/
def cfgEmptyImage : AlgoConfig :=
  { docker_image := "ubuntu:latest", apptainer_image := "",
    tinyrange_image := none, memory_mb := 2048, cpu_cores := 4,
    storage_mb := 4096 }

/-! ## Theorems for the claims about run.py (C1, C2, C5) -/

/-- C1, counterexample: with exit code 3 and an artifact in the output
area, run_docker_algo does not report any failure at all: the outcome is a
normal return and one file is harvested, because the bound exit code is
never inspected.  The claim that a nonzero exit yields an ExecutionFailure
with a bounded log tail and zero harvested files is false of the code. -/
theorem C1_counterexample :
    run_docker_algo "work" "algoX" unitX 3 ["work/output/out.nii.gz"] =
      ExecOutcome.ok
        { moves := [("work/output/out.nii",
            "work/bids/derivatives/algoX/sub-1/anat/sub-1_run-1_Chimap.nii")],
          warnings := [] } := by decide

/-- C1, amended: the Docker backend ignores the exit code entirely, always
running the harvest with the same result as a zero exit, and no bounded log
tail is produced anywhere; the Apptainer backend raises RuntimeError on a
nonzero return code and harvests nothing. -/
theorem C1_nonzero_exit (work algo : String) (d : InputDict) (ec : Int)
    (outs : List String) (rc : Int) (hrc : rc ≠ 0) :
    run_docker_algo work algo d ec outs =
      ExecOutcome.ok (handle_output work algo d outs) ∧
    run_apptainer_algo work algo d rc outs =
      ExecOutcome.raised ("Apptainer run failed with code " ++ toString rc) := by
  exact ⟨rfl, by simp [run_apptainer_algo, hrc]⟩

/-- C1, amended, witness at exit code 3. -/
theorem C1_nonzero_exit_witness :
    run_docker_algo "work" "algoX" unitX 3 ["work/output/out.nii.gz"] =
      ExecOutcome.ok (handle_output "work" "algoX" unitX ["work/output/out.nii.gz"]) ∧
    run_apptainer_algo "work" "algoX" unitX 3 ["work/output/out.nii.gz"] =
      ExecOutcome.raised ("Apptainer run failed with code " ++ toString (3 : Int)) :=
  C1_nonzero_exit "work" "algoX" unitX 3 ["work/output/out.nii.gz"] 3 (by decide)

/-- C2: on the success path with identity (sub 1, no session, acq A, run 1)
and a single gzipped artifact out.nii.gz, the harvested file is decompressed
and moved under derivatives/algoX/sub-1/anat, but its name is
sub-1_run-1_Chimap.nii: the acquisition token is missing, because
construct_bids_filename reads the dictionary key Acq while every WorkUnit
carries the key Acquisition (as the rest of run.py and parse_bids.py do),
so the acq branch is dead code and the claimed name
sub-1_acq-A_run-1_Chimap.nii is never produced. -/
theorem C2_acq_token_missing :
    run_docker_algo "work" "algoX" unitX 0 ["work/output/out.nii.gz"] =
      ExecOutcome.ok
        { moves := [("work/output/out.nii",
            "work/bids/derivatives/algoX/sub-1/anat/sub-1_run-1_Chimap.nii")],
          warnings := [] } ∧
    dget unitX "Acq" = none ∧ dget unitX "Acquisition" = some "A" := by decide

/-- C5, counterexample: with exit code 0 and an empty output area, the
outcome is a normal return with an empty harvest and a logged warning, not
any failure: the claim that this yields an ExecutionFailure is false of the
code. -/
theorem C5_counterexample :
    run_docker_algo "work" "algoX" unitX 0 [] =
      ExecOutcome.ok { moves := [], warnings := ["No NIfTI files found in work/output."] } := by
  decide

/-- C5, amended: an execution whose output area contains no volume file
produces only the logged warning No NIfTI files found and an empty list of
harvested files; the run still terminates as a success. -/
theorem C5_no_output_only_warns (work algo : String) (d : InputDict) (ec : Int)
    (outs : List String) (h : outs = []) :
    run_docker_algo work algo d ec outs =
      ExecOutcome.ok
        { moves := [],
          warnings := ["No NIfTI files found in " ++ pyJoin work "output" ++ "."] } := by
  subst h; rfl

/-- C5, amended, witness. -/
theorem C5_no_output_only_warns_witness :
    run_docker_algo "work" "algoX" unitX 0 [] =
      ExecOutcome.ok
        { moves := [],
          warnings := ["No NIfTI files found in " ++ pyJoin "work" "output" ++ "."] } :=
  C5_no_output_only_warns "work" "algoX" unitX 0 [] rfl

/-! ## Theorems for C3: sidecar failures abort the walk -/

/-- C3, counterexample: over a tree whose first subject has an invalid
sidecar and whose second subject is untouched by the failure, the whole
parse returns the json error instead of a result for the rest of the tree
(with a valid reader the same walk yields two groups), so the claim that
malformed sidecar metadata is logged and never fatal to the walk is false
of the code. -/
theorem C3_counterexample :
    parse_bids_directory rjInvalid [] walkTwoSubjects =
      .error "Expecting value: line 1 column 1 (char 0)" ∧
    (parse_bids_directory rjValid [] walkTwoSubjects).map List.length = .ok 2 := by decide

/-- Splitting an exFold at an append boundary. -/
theorem exFold_append {σ α : Type} (f : σ → α → Except String σ) (l1 l2 : List α) (s : σ) :
    exFold f s (l1 ++ l2) =
      match exFold f s l1 with
      | .ok s' => exFold f s' l2
      | .error e => .error e := by
  induction l1 generalizing s with
  | nil => simp [exFold]
  | cons a l ih =>
    simp only [List.cons_append, exFold]
    cases f s a with
    | ok s' => exact ih s'
    | error e => rfl

/-- C3, amended: there is no exception handling around sidecar reads at any
level: once processing a directory raises (as an unreadable or invalid
sidecar does), parse_bids_directory propagates that error and the remaining
directories of the tree are never processed. -/
theorem C3_sidecar_error_fatal (rj : String → Except String Metadata)
    (b0 : List (String × List ℚ)) (pre post : List DirEntry) (e : DirEntry)
    (st : ParseState) (msg : String)
    (hpre : exFold (processRoot rj b0) {} pre = .ok st)
    (herr : processRoot rj b0 st e = .error msg) :
    parse_bids_directory rj b0 (pre ++ e :: post) = .error msg := by
  unfold parse_bids_directory
  rw [exFold_append, hpre]
  simp only [exFold, herr]

/-- C3, amended, witness: the failing sidecar of the first directory aborts
before the second subject is seen. -/
theorem C3_sidecar_error_fatal_witness :
    parse_bids_directory rjInvalid [] ([] ++
        ⟨"data/sub-1/anat", ["sub-1_echo-1_part-mag_MEGRE.json",
                             "sub-1_echo-1_part-mag_MEGRE.nii"]⟩ ::
        [⟨"data/sub-2/anat", ["sub-2_echo-1_part-mag_MEGRE.nii"]⟩]) =
      .error "Expecting value: line 1 column 1 (char 0)" :=
  C3_sidecar_error_fatal rjInvalid [] [] _ _ {} _ (by decide) (by decide)

/-- C6, counterexample: the two walks are permutations of the same
directory tree, yet the group's MagneticFieldStrength differs (first
non-null wins, and which sidecar comes first depends on the directory visit
order when a subject's files span two directories), so the claim that any
permutation of the visit order yields the same output is false of the
code. -/
theorem C6_counterexample :
    [entSplitA, entSplitB].Perm [entSplitB, entSplitA] ∧
    (parse_bids_directory rjSplit [] [entSplitA, entSplitB]).map
        (List.map Group.MagneticFieldStrength) = .ok [some 3] ∧
    (parse_bids_directory rjSplit [] [entSplitB, entSplitA]).map
        (List.map Group.MagneticFieldStrength) = .ok [some 7] :=
  ⟨List.Perm.swap entSplitB entSplitA [], by decide, by decide⟩

/-! ## Order lemmas for the Python string comparison -/

theorem strLeB_total (a b : List Char) : strLeB a b = true ∨ strLeB b a = true := by
  induction a generalizing b with
  | nil => exact Or.inl rfl
  | cons x as ih =>
    cases b with
    | nil => exact Or.inr rfl
    | cons y bs =>
      by_cases h : x = y
      · subst h
        simpa [strLeB] using ih bs
      · rcases lt_or_gt_of_ne h with hlt | hgt
        · exact Or.inl (by simp [strLeB, h, hlt])
        · exact Or.inr (by simp [strLeB, Ne.symm h, hgt])

theorem strLeB_trans {a b c : List Char} (h1 : strLeB a b = true)
    (h2 : strLeB b c = true) : strLeB a c = true := by
  induction a generalizing b c with
  | nil => rfl
  | cons x as ih =>
    cases b with
    | nil => simp [strLeB] at h1
    | cons y bs =>
      cases c with
      | nil => simp [strLeB] at h2
      | cons z cs =>
        by_cases hxy : x = y
        · subst hxy
          by_cases hyz : x = z
          · subst hyz
            simp only [strLeB, if_pos rfl] at h1 h2 ⊢
            exact ih h1 h2
          · simpa [strLeB, hyz] using h2
        · by_cases hyz : y = z
          · subst hyz
            simpa [strLeB, hxy] using h1
          · simp only [strLeB, if_neg hxy, decide_eq_true_eq] at h1
            simp only [strLeB, if_neg hyz, decide_eq_true_eq] at h2
            have hxz : x < z := lt_trans h1 h2
            simp [strLeB, ne_of_lt hxz, hxz]

theorem strLeB_antisymm {a b : List Char} (h1 : strLeB a b = true)
    (h2 : strLeB b a = true) : a = b := by
  induction a generalizing b with
  | nil =>
    cases b with
    | nil => rfl
    | cons y bs => simp [strLeB] at h2
  | cons x as ih =>
    cases b with
    | nil => simp [strLeB] at h1
    | cons y bs =>
      by_cases hxy : x = y
      · subst hxy
        simp only [strLeB, if_pos rfl] at h1 h2
        rw [ih h1 h2]
      · simp only [strLeB, if_neg hxy, decide_eq_true_eq] at h1
        simp only [strLeB, if_neg (Ne.symm hxy), decide_eq_true_eq] at h2
        exact absurd h2 (lt_asymm h1)

theorem string_eq_of_toList_eq {a b : String} (h : a.toList = b.toList) : a = b := by
  cases a with
  | mk da =>
    cases b with
    | mk db => exact congrArg String.mk h

instance : IsTotal String strLe := ⟨fun a b => strLeB_total a.toList b.toList⟩

instance : IsTrans String strLe := ⟨fun _ _ _ => strLeB_trans⟩

instance : IsAntisymm String strLe :=
  ⟨fun _ _ h1 h2 => string_eq_of_toList_eq (strLeB_antisymm h1 h2)⟩

/-- Sorting with the Python comparator depends only on the multiset of
strings, because sorted permutations of each other coincide. -/
theorem pySortStr_perm_eq {l1 l2 : List String} (h : l1.Perm l2) :
    pySortStr l1 = pySortStr l2 :=
  List.eq_of_perm_of_sorted
    ((List.perm_insertionSort strLe l1).trans (h.trans (List.perm_insertionSort strLe l2).symm))
    (List.sorted_insertionSort strLe l1) (List.sorted_insertionSort strLe l2)

/-- Directory processing only sees the sorted file listing. -/
theorem processRoot_files_perm (rj : String → Except String Metadata)
    (b0 : List (String × List ℚ)) (st : ParseState) (e1 e2 : DirEntry)
    (hroot : e1.root = e2.root) (hfiles : e1.files.Perm e2.files) :
    processRoot rj b0 st e1 = processRoot rj b0 st e2 := by
  unfold processRoot
  rw [hroot, pySortStr_perm_eq hfiles]

/-- The walk fold only sees each directory through processRoot. -/
theorem exFold_processRoot_congr (rj : String → Except String Metadata)
    (b0 : List (String × List ℚ)) {wA wB : List DirEntry}
    (h : List.Forall₂ (fun a b => a.root = b.root ∧ a.files.Perm b.files) wA wB) :
    ∀ st, exFold (processRoot rj b0) st wA = exFold (processRoot rj b0) st wB := by
  induction h with
  | nil => intro _; rfl
  | @cons a b as bs hab _ ih =>
    intro st
    simp only [exFold]
    rw [processRoot_files_perm rj b0 st a b hab.1 hab.2]
    cases processRoot rj b0 st b with
    | ok s' => exact ih s'
    | error e => rfl

/-- C6, amended: the Grouper is a pure function of the walk sequence, and
shuffling the files inside each directory never changes the output, because
every listing is sorted before processing; but permuting the order the
directories themselves are visited can change order-sensitive fields
(MagneticFieldStrength keeps the first non-null sidecar value, B0 keeps the
last) when one group's sidecars span several directories, as the
counterexample shows. -/
theorem C6_deterministic_for_sorted_listings (rj : String → Except String Metadata)
    (b0 : List (String × List ℚ)) (wA wB : List DirEntry)
    (h : List.Forall₂ (fun a b => a.root = b.root ∧ a.files.Perm b.files) wA wB) :
    parse_bids_directory rj b0 wA = parse_bids_directory rj b0 wB := by
  unfold parse_bids_directory
  rw [exFold_processRoot_congr rj b0 h {}]

/-- C6, amended, witness: swapping the two files inside one directory
leaves the output unchanged. -/
theorem C6_deterministic_witness :
    parse_bids_directory rjValid []
        [⟨"data/sub-1/anat", ["sub-1_echo-1_part-mag_MEGRE.nii",
                              "sub-1_echo-2_part-mag_MEGRE.nii"]⟩] =
      parse_bids_directory rjValid []
        [⟨"data/sub-1/anat", ["sub-1_echo-2_part-mag_MEGRE.nii",
                              "sub-1_echo-1_part-mag_MEGRE.nii"]⟩] :=
  C6_deterministic_for_sorted_listings rjValid [] _ _
    (List.Forall₂.cons
      ⟨rfl, List.Perm.swap "sub-1_echo-2_part-mag_MEGRE.nii"
        "sub-1_echo-1_part-mag_MEGRE.nii" []⟩
      List.Forall₂.nil)

/-! ## A matched run token always makes the acquisition pattern match -/

theorem lastUsIdx_isSome_of_mem {cs : List Char} (h : '_' ∈ cs) :
    ∃ k, lastUsIdx cs = some k := by
  induction cs with
  | nil => cases h
  | cons c cs ih =>
    simp only [lastUsIdx]
    cases hl : lastUsIdx cs with
    | some k => exact ⟨k + 1, rfl⟩
    | none =>
      rcases List.mem_cons.mp h with hc | hcs
      · rw [if_pos (by simp [← hc])]
        exact ⟨0, rfl⟩
      · obtain ⟨k, hk⟩ := ih hcs
        simp [hk] at hl

theorem greedyUsCapture_isSome {c : Char} {cs : List Char} (h : '_' ∈ cs) :
    (greedyUsCapture (c :: cs)).isSome := by
  obtain ⟨k, hk⟩ := lastUsIdx_isSome_of_mem h
  unfold greedyUsCapture
  rw [show lastUsIdx (c :: cs) = some (k + 1) from by simp [lastUsIdx, hk]]
  have hk1 : 1 ≤ k + 1 := by omega
  simp [hk1]

theorem isWordChar_of_isDigit {c : Char} (h : c.isDigit = true) :
    isWordChar c = true := by
  simp [isWordChar, Char.isAlphanum, h]

theorem lsw_single_underscore {l : List Char} (h : lsw ['_'] l = true) :
    ∃ t, l = '_' :: t := by
  cases l with
  | nil => simp [lsw] at h
  | cons c cs =>
    refine ⟨cs, ?_⟩
    have hb : ('_' == c) = true := by
      cases hbv : ('_' == c) with
      | true => rfl
      | false => rw [lsw, hbv, Bool.false_and] at h; cases h
    rw [eq_of_beq hb]

/-- When a digit run followed by an underscore starts the text, the maximal
word run is nonempty and contains that underscore strictly inside. -/
theorem takeWhile_digit_underscore : ∀ (rest : List Char),
    rest.takeWhile Char.isDigit ≠ [] →
    lsw ['_'] (rest.drop (rest.takeWhile Char.isDigit).length) = true →
    ∃ c cs, rest.takeWhile isWordChar = c :: cs ∧ '_' ∈ cs := by
  intro rest
  induction rest with
  | nil => intro h; simp at h
  | cons r rs ih =>
    intro hd hu
    by_cases hr : r.isDigit
    · have hword := isWordChar_of_isDigit hr
      rw [List.takeWhile_cons, if_pos hr] at hd hu
      rw [List.takeWhile_cons, if_pos hword]
      by_cases hd2 : rs.takeWhile Char.isDigit = []
      · rw [hd2] at hu
        simp only [List.length_cons, List.length_nil, Nat.zero_add,
          List.drop_succ_cons, List.drop_zero] at hu
        refine ⟨r, rs.takeWhile isWordChar, rfl, ?_⟩
        obtain ⟨t, ht⟩ := lsw_single_underscore hu
        rw [ht, List.takeWhile_cons, if_pos (by simp [isWordChar])]
        exact List.mem_cons_self '_' (List.takeWhile isWordChar t)
      · simp only [List.length_cons, List.drop_succ_cons] at hu
        obtain ⟨c, cs, heq, hmem⟩ := ih hd2 hu
        exact ⟨r, c :: cs, by rw [heq], List.mem_cons_of_mem c hmem⟩
    · rw [List.takeWhile_cons, if_neg hr] at hd
      exact absurd rfl hd

/-- Whenever the run pattern matches a filename, the combined
acquisition-or-run pattern matches as well: at the position of the run
token the word run extends over the digits up to the following underscore,
so the greedy capture succeeds there if not earlier. -/
theorem scanAcqRun_isSome_of_run : ∀ {cs : List Char},
    (scanNumTok "_run-".toList cs).isSome = true → (scanAcqRun cs).isSome = true := by
  intro cs
  induction cs with
  | nil => intro h; simp [scanNumTok] at h
  | cons c cs ih =>
    intro h
    by_cases hm : lsw "_run-".toList (c :: cs) = true
    · have hm' : (lsw "_acq-".toList (c :: cs) || lsw "_run-".toList (c :: cs)) = true := by
        rw [hm, Bool.or_true]
      simp only [scanNumTok, if_pos hm] at h
      simp only [scanAcqRun, if_pos hm']
      split at h
      next hgate =>
        rw [Bool.and_eq_true] at hgate
        have hd : (List.drop ("_run-".toList.length) (c :: cs)).takeWhile Char.isDigit ≠ [] := by
          intro hnil
          have h1 := hgate.1
          rw [hnil] at h1
          simp at h1
        have hu := hgate.2
        obtain ⟨c0, cs0, heq, hmem⟩ :=
          takeWhile_digit_underscore (List.drop ("_run-".toList.length) (c :: cs)) hd hu
        rw [show (5 : Nat) = ("_run-".toList.length) from rfl, heq]
        have hsome := greedyUsCapture_isSome (c := c0) hmem
        cases hg : greedyUsCapture (c0 :: cs0) with
        | some cap => simp
        | none => rw [hg] at hsome; simp at hsome
      next =>
        have hrec := ih h
        cases hg : greedyUsCapture ((List.drop 5 (c :: cs)).takeWhile isWordChar) with
        | some cap => simp
        | none => simpa using hrec
    · simp only [scanNumTok, if_neg hm] at h
      have hrec := ih h
      by_cases hm2 : (lsw "_acq-".toList (c :: cs) || lsw "_run-".toList (c :: cs)) = true
      · simp only [scanAcqRun, if_pos hm2]
        cases hg : greedyUsCapture ((List.drop 5 (c :: cs)).takeWhile isWordChar) with
        | some cap => simp
        | none => simpa using hrec
      · simp only [scanAcqRun, if_neg hm2]
        exact hrec

/-- The gate in the branch that matched the run token: the if of scanNumTok
reduced with its condition true still needs the success case split; this
helper restates the searchRun and searchAcqRun forms. -/
theorem searchAcqRun_isSome_of_searchRun {f : String}
    (h : (searchRun f).isSome = true) : (searchAcqRun f).isSome = true :=
  scanAcqRun_isSome_of_run h

/-! ## Field preservation through the group updates -/

theorem keyOf_applyEcho (md : Metadata) (g : Group) :
    keyOf (applyEcho md g) = keyOf g := by
  cases hET : md.EchoTime with
  | none => simp [applyEcho, hET]
  | some v =>
    simp only [applyEcho, hET]
    split_ifs <;> rfl

theorem keyOf_applyMFS (md : Metadata) (g : Group) :
    keyOf (applyMFS md g) = keyOf g := by
  unfold applyMFS; split_ifs <;> rfl

theorem keyOf_applyB0 (md : Metadata) (g : Group) :
    keyOf (applyB0 md g) = keyOf g := by
  unfold applyB0; cases md.B0_direction <;> cases md.B0_dir <;> rfl

theorem keyOf_applyMeta (md : Metadata) (g : Group) :
    keyOf (applyMeta md g) = keyOf g := by
  unfold applyMeta
  rw [keyOf_applyB0, keyOf_applyMFS, keyOf_applyEcho]

theorem addJsonRead_ok {rj : String → Except String Metadata} {fp : String}
    {g g' : Group} (h : addJsonRead rj fp g = .ok g') :
    ∃ md, g' = applyMeta md g := by
  unfold addJsonRead at h
  cases hr : rj fp with
  | ok md => rw [hr] at h; cases h; exact ⟨md, rfl⟩
  | error e => rw [hr] at h; cases h

theorem keyOf_addFileToGroup {rj : String → Except String Metadata}
    {p fp f part : String} {g g' : Group}
    (h : addFileToGroup rj p fp f part g = .ok g') : keyOf g' = keyOf g := by
  unfold addFileToGroup at h
  split_ifs at h
  all_goals
    first
      | (cases h; rfl)
      | (obtain ⟨md, rfl⟩ := addJsonRead_ok h; rw [keyOf_applyMeta]; rfl)

theorem echoTime_applyEcho_nodup (md : Metadata) (g : Group)
    (h : g.EchoTime.Nodup) : (applyEcho md g).EchoTime.Nodup := by
  cases hET : md.EchoTime with
  | none => simpa [applyEcho, hET] using h
  | some v =>
    simp only [applyEcho, hET]
    split_ifs with hc
    · simp [List.nodup_append, h, hc.2]
    · exact h

theorem echoTime_applyMFS (md : Metadata) (g : Group) :
    (applyMFS md g).EchoTime = g.EchoTime := by
  unfold applyMFS; split_ifs <;> rfl

theorem echoTime_applyB0 (md : Metadata) (g : Group) :
    (applyB0 md g).EchoTime = g.EchoTime := by
  unfold applyB0; cases md.B0_direction <;> cases md.B0_dir <;> rfl

theorem echoTime_applyMeta_nodup (md : Metadata) (g : Group)
    (h : g.EchoTime.Nodup) : (applyMeta md g).EchoTime.Nodup := by
  unfold applyMeta
  rw [echoTime_applyB0, echoTime_applyMFS]
  exact echoTime_applyEcho_nodup md g h

theorem echoTime_addFileToGroup_nodup {rj : String → Except String Metadata}
    {p fp f part : String} {g g' : Group}
    (h : addFileToGroup rj p fp f part g = .ok g') (hn : g.EchoTime.Nodup) :
    g'.EchoTime.Nodup := by
  unfold addFileToGroup at h
  split_ifs at h
  all_goals
    first
      | (cases h; exact hn)
      | (obtain ⟨md, rfl⟩ := addJsonRead_ok h; exact echoTime_applyMeta_nodup md _ hn)

theorem elemInv_sortGroupLists {g : Group} (hn : g.EchoTime.Nodup)
    (hra : g.Run.isSome → g.Acquisition.isSome) : elemInv (sortGroupLists g) := by
  refine ⟨List.sorted_insertionSort _ _, ?_, hra⟩
  exact ((List.perm_insertionSort _ g.EchoTime).nodup_iff).mpr hn

theorem elemInv_sort_addFile {rj : String → Except String Metadata}
    {p fp f part : String} {g g' : Group}
    (hok : addFileToGroup rj p fp f part g = .ok g')
    (hn : g.EchoTime.Nodup) (hra : g.Run.isSome → g.Acquisition.isSome) :
    elemInv (sortGroupLists g') := by
  have hkey := keyOf_addFileToGroup hok
  have hn' := echoTime_addFileToGroup_nodup hok hn
  have hacq : g'.Acquisition = g.Acquisition := congrArg (fun k => k.2.2.1) hkey
  have hrun : g'.Run = g.Run := congrArg (fun k => k.2.2.2) hkey
  exact elemInv_sortGroupLists hn' (by rw [hacq, hrun]; exact hra)

theorem keyMatches_iff {subject : String} {session acquisition run : Option String}
    {g : Group} :
    keyMatches subject session acquisition run g = true ↔
      keyOf g = (subject, session, acquisition, run) := by
  simp [keyMatches, keyOf, Prod.ext_iff, and_assoc]

/-! ## Invariant preservation through updateGroups -/

theorem updateGroups_ok_keys (rj : String → Except String Metadata)
    (b0 : List (String × List ℚ)) (subject : String)
    (session acquisition run : Option String) (path fp file part : String) :
    ∀ (gs gs' : List Group),
      updateGroups rj b0 subject session acquisition run path fp file part gs = .ok gs' →
      (gs.any (keyMatches subject session acquisition run) = true ∧
        gs'.map keyOf = gs.map keyOf) ∨
      (gs.any (keyMatches subject session acquisition run) = false ∧
        gs'.map keyOf = gs.map keyOf ++ [(subject, session, acquisition, run)]) := by
  intro gs
  induction gs with
  | nil =>
    intro gs' h
    unfold updateGroups at h
    cases hadd : addFileToGroup rj path fp file part
        (newGroup b0 subject session acquisition run) with
    | ok g =>
      rw [hadd] at h
      cases h
      right
      refine ⟨rfl, ?_⟩
      have hkey := keyOf_addFileToGroup hadd
      simp only [List.map_nil, List.map_cons, List.nil_append]
      rw [show keyOf (sortGroupLists g) = keyOf g from rfl, hkey]
      rfl
    | error e => rw [hadd] at h; cases h
  | cons g rest ih =>
    intro gs' h
    unfold updateGroups at h
    split_ifs at h with hk
    · cases hadd : addFileToGroup rj path fp file part g with
      | ok g1 =>
        rw [hadd] at h
        cases h
        left
        refine ⟨by simp [List.any_cons, hk], ?_⟩
        simp only [List.map_cons]
        rw [show keyOf (sortGroupLists g1) = keyOf g1 from rfl, keyOf_addFileToGroup hadd]
      | error e => rw [hadd] at h; cases h
    · rw [Bool.not_eq_true] at hk
      cases hrec : updateGroups rj b0 subject session acquisition run path fp file part rest with
      | ok rest' =>
        rw [hrec] at h
        cases h
        rcases ih rest' hrec with ⟨ha, hm⟩ | ⟨ha, hm⟩
        · exact Or.inl ⟨by simp [List.any_cons, ha], by simp [List.map_cons, hm]⟩
        · exact Or.inr ⟨by simp [List.any_cons, hk, ha], by simp [List.map_cons, hm]⟩
      | error e => rw [hrec] at h; cases h

theorem updateGroups_ok_elems (rj : String → Except String Metadata)
    (b0 : List (String × List ℚ)) (subject : String)
    (session acquisition run : Option String) (path fp file part : String)
    (hra : run.isSome → acquisition.isSome) :
    ∀ (gs gs' : List Group),
      updateGroups rj b0 subject session acquisition run path fp file part gs = .ok gs' →
      (∀ g ∈ gs, elemInv g) → ∀ g' ∈ gs', elemInv g' := by
  intro gs
  induction gs with
  | nil =>
    intro gs' h hall
    unfold updateGroups at h
    cases hadd : addFileToGroup rj path fp file part
        (newGroup b0 subject session acquisition run) with
    | ok g =>
      rw [hadd] at h
      cases h
      intro g' hg'
      rw [List.mem_singleton] at hg'
      subst hg'
      exact elemInv_sort_addFile hadd List.nodup_nil hra
    | error e => rw [hadd] at h; cases h
  | cons g rest ih =>
    intro gs' h hall
    unfold updateGroups at h
    split_ifs at h with hk
    · cases hadd : addFileToGroup rj path fp file part g with
      | ok g1 =>
        rw [hadd] at h
        cases h
        intro g' hg'
        rcases List.mem_cons.mp hg' with hg' | hg'
        · subst hg'
          have he := hall g (List.mem_cons_self g rest)
          exact elemInv_sort_addFile hadd he.2.1 he.2.2
        · exact hall g' (List.mem_cons_of_mem g hg')
      | error e => rw [hadd] at h; cases h
    · cases hrec : updateGroups rj b0 subject session acquisition run path fp file part rest with
      | ok rest' =>
        rw [hrec] at h
        cases h
        intro g' hg'
        rcases List.mem_cons.mp hg' with hg' | hg'
        · subst hg'
          exact hall g' (List.mem_cons_self g' rest)
        · exact ih rest' hrec (fun x hx => hall x (List.mem_cons_of_mem g hx)) g' hg'
      | error e => rw [hrec] at h; cases h

theorem stInv_updateGroups {rj : String → Except String Metadata}
    {b0 : List (String × List ℚ)} {subject : String}
    {session acquisition run : Option String} {path fp file part : String}
    (hra : run.isSome → acquisition.isSome)
    {gs gs' : List Group}
    (h : updateGroups rj b0 subject session acquisition run path fp file part gs = .ok gs')
    (h1 : (gs.map keyOf).Nodup) (h2 : ∀ g ∈ gs, elemInv g) :
    (gs'.map keyOf).Nodup ∧ ∀ g' ∈ gs', elemInv g' := by
  refine ⟨?_, updateGroups_ok_elems rj b0 subject session acquisition run path fp file part
    hra gs gs' h h2⟩
  rcases updateGroups_ok_keys rj b0 subject session acquisition run path fp file part
      gs gs' h with ⟨_, hm⟩ | ⟨ha, hm⟩
  · rw [hm]; exact h1
  · rw [hm]
    have hnot : (subject, session, acquisition, run) ∉ gs.map keyOf := by
      intro hmem
      obtain ⟨g, hg, hkey⟩ := List.mem_map.mp hmem
      have hmatch : keyMatches subject session acquisition run g = true :=
        keyMatches_iff.mpr hkey
      have := List.any_eq_true.mpr ⟨g, hg, hmatch⟩
      rw [ha] at this
      cases this
    simp [List.nodup_append, h1, hnot]

/-! ## Invariant preservation across the walk and the second pass -/

theorem exFold_inv {σ α : Type} {f : σ → α → Except String σ} (P : σ → Prop)
    (hf : ∀ s a s', P s → f s a = .ok s' → P s') :
    ∀ (l : List α) (s s' : σ), P s → exFold f s l = .ok s' → P s' := by
  intro l
  induction l with
  | nil =>
    intro s s' hp h
    unfold exFold at h
    cases h
    exact hp
  | cons a t ih =>
    intro s s' hp h
    unfold exFold at h
    cases hfa : f s a with
    | ok s1 =>
      rw [hfa] at h
      exact ih s1 s' (hf s a s1 hp hfa) h
    | error e => rw [hfa] at h; cases h

theorem stInv_processFile {rj : String → Except String Metadata}
    {b0 : List (String × List ℚ)} {root relRoot : String} {isDeriv : Bool}
    {file : String} {acc acc' : Option String × ParseState}
    (h : processFile rj b0 root relRoot isDeriv acc file = .ok acc')
    (hinv : stInv acc.2) : stInv acc'.2 := by
  obtain ⟨ses, st⟩ := acc
  simp only [processFile] at h
  split_ifs at h with hext hder
  · cases h; exact hinv
  · split at h
    next => cases h; exact hinv
    next subject hsub =>
      split at h
      next software hsw =>
        split at h
        next dtype hdt => cases h; exact hinv
        next => cases h; exact hinv
      next => cases h; exact hinv
  · split at h
    next => cases h; exact hinv
    next subject hsub =>
      split at h
      next gs hupd =>
        cases h
        exact stInv_updateGroups
          (fun hs => searchAcqRun_isSome_of_searchRun hs) hupd hinv.1 hinv.2
      next => cases h

theorem stInv_processRoot {rj : String → Except String Metadata}
    {b0 : List (String × List ℚ)} {st st' : ParseState} {e : DirEntry}
    (h : processRoot rj b0 st e = .ok st') (hinv : stInv st) : stInv st' := by
  simp only [processRoot] at h
  split at h
  next acc hacc =>
    cases h
    exact exFold_inv (fun a => stInv a.2) (fun _ _ _ hp hf => stInv_processFile hf hp)
      (pySortStr e.files) (searchSes e.root, st) acc hinv hacc
  next => cases h

theorem stInv_walk {rj : String → Except String Metadata}
    {b0 : List (String × List ℚ)} {walk : List DirEntry} {st' : ParseState}
    (h : exFold (processRoot rj b0) {} walk = .ok st') : stInv st' :=
  exFold_inv stInv (fun _ _ _ hp hf => stInv_processRoot hf hp) walk {} st'
    ⟨List.nodup_nil, fun g hg => absurd hg (List.not_mem_nil g)⟩ h

/-! ## The second pass only rewrites non-identity fields -/

theorem updAt_map_keyOf {f : Group → Group} (hf : ∀ g, keyOf (f g) = keyOf g) :
    ∀ (gs : List Group) (i : Nat), (updAt i f gs).map keyOf = gs.map keyOf := by
  intro gs
  induction gs with
  | nil => intro i; simp [updAt]
  | cons g rest ih =>
    intro i
    cases i with
    | zero => simp [updAt, hf]
    | succ n => simp [updAt, ih n]

theorem updAt_elems {f : Group → Group} {P : Group → Prop}
    (hf : ∀ g, P g → P (f g)) :
    ∀ (gs : List Group) (i : Nat), (∀ g ∈ gs, P g) → ∀ g' ∈ updAt i f gs, P g' := by
  intro gs
  induction gs with
  | nil => intro i _ g' hg'; simp [updAt] at hg'
  | cons g rest ih =>
    intro i hall g' hg'
    cases i with
    | zero =>
      rcases List.mem_cons.mp hg' with hg' | hg'
      · rw [hg']; exact hf g (hall g (List.mem_cons_self g rest))
      · exact hall g' (List.mem_cons_of_mem g hg')
    | succ n =>
      rcases List.mem_cons.mp hg' with hg' | hg'
      · rw [hg']; exact hall g (List.mem_cons_self g rest)
      · exact ih n (fun x hx => hall x (List.mem_cons_of_mem g hx)) g' hg'

theorem foldl_updAt_map_keyOf {f : Group → Group} (hf : ∀ g, keyOf (f g) = keyOf g) :
    ∀ (idxs : List Nat) (gs : List Group),
      (idxs.foldl (fun acc i => updAt i f acc) gs).map keyOf = gs.map keyOf := by
  intro idxs
  induction idxs with
  | nil => intro gs; rfl
  | cons i t ih => intro gs; rw [List.foldl_cons, ih, updAt_map_keyOf hf]

theorem foldl_updAt_elems {f : Group → Group} {P : Group → Prop}
    (hf : ∀ g, P g → P (f g)) :
    ∀ (idxs : List Nat) (gs : List Group), (∀ g ∈ gs, P g) →
      ∀ g' ∈ idxs.foldl (fun acc i => updAt i f acc) gs, P g' := by
  intro idxs
  induction idxs with
  | nil => intro gs hall; exact hall
  | cons i t ih =>
    intro gs hall
    rw [List.foldl_cons]
    exact ih (updAt i f gs) (updAt_elems hf gs i hall)

theorem resolveOne_map_keyOf (s : String) (gs : List Group) (d : DerivEntry) :
    (resolveOne s gs d).map keyOf = gs.map keyOf := by
  unfold resolveOne
  cases hsort : sortByAcq ((enumIdx 0 gs).filter
      (fun p => decide (p.2.Subject = s) && !p.2.mag_nii.isEmpty)) with
  | nil => simp only [hsort]
  | cons first restSorted =>
    simp only [hsort]
    split_ifs with hc hm hm2
    · rw [foldl_updAt_map_keyOf (f := setMask d.path) (fun g => rfl),
        updAt_map_keyOf (f := addDerivToGroup d) (fun g => rfl)]
    · rw [updAt_map_keyOf (f := addDerivToGroup d) (fun g => rfl)]
    · rw [foldl_updAt_map_keyOf
        (f := fun g => setMask d.path (addDerivToGroup d g)) (fun g => rfl)]
    · rw [foldl_updAt_map_keyOf (f := addDerivToGroup d) (fun g => rfl)]

theorem resolveOne_elems (s : String) (d : DerivEntry) {gs : List Group}
    (h : ∀ g ∈ gs, elemInv g) : ∀ g' ∈ resolveOne s gs d, elemInv g' := by
  unfold resolveOne
  cases hsort : sortByAcq ((enumIdx 0 gs).filter
      (fun p => decide (p.2.Subject = s) && !p.2.mag_nii.isEmpty)) with
  | nil => simp only [hsort]; exact h
  | cons first restSorted =>
    simp only [hsort]
    split_ifs with hc hm hm2
    · exact foldl_updAt_elems (f := setMask d.path) (fun g hg => hg) _ _
        (updAt_elems (f := addDerivToGroup d) (fun g hg => hg) gs _ h)
    · exact updAt_elems (f := addDerivToGroup d) (fun g hg => hg) gs _ h
    · exact foldl_updAt_elems
        (f := fun g => setMask d.path (addDerivToGroup d g)) (fun g hg => hg) _ _ h
    · exact foldl_updAt_elems (f := addDerivToGroup d) (fun g hg => hg) _ _ h

theorem foldl_resolveOne_map_keyOf (s : String) :
    ∀ (ds : List DerivEntry) (gs : List Group),
      (ds.foldl (resolveOne s) gs).map keyOf = gs.map keyOf := by
  intro ds
  induction ds with
  | nil => intro gs; rfl
  | cons d dt ih => intro gs; rw [List.foldl_cons, ih, resolveOne_map_keyOf]

theorem foldl_resolveOne_elems (s : String) :
    ∀ (ds : List DerivEntry) (gs : List Group), (∀ g ∈ gs, elemInv g) →
      ∀ g' ∈ ds.foldl (resolveOne s) gs, elemInv g' := by
  intro ds
  induction ds with
  | nil => intro gs hall; exact hall
  | cons d dt ih =>
    intro gs hall
    rw [List.foldl_cons]
    exact ih (resolveOne s gs d) (resolveOne_elems s d hall)

theorem resolveDerivatives_map_keyOf :
    ∀ (temp : List (String × List DerivEntry)) (gs : List Group),
      (resolveDerivatives gs temp).map keyOf = gs.map keyOf := by
  intro temp
  induction temp with
  | nil => intro gs; rfl
  | cons p rest ih =>
    intro gs
    obtain ⟨s, ds⟩ := p
    unfold resolveDerivatives
    rw [ih, foldl_resolveOne_map_keyOf]

theorem resolveDerivatives_elems :
    ∀ (temp : List (String × List DerivEntry)) (gs : List Group),
      (∀ g ∈ gs, elemInv g) → ∀ g' ∈ resolveDerivatives gs temp, elemInv g' := by
  intro temp
  induction temp with
  | nil => intro gs hall; exact hall
  | cons p rest ih =>
    intro gs hall
    obtain ⟨s, ds⟩ := p
    unfold resolveDerivatives
    exact ih _ (foldl_resolveOne_elems s ds gs hall)

/-! ## The final sort really sorts -/

theorem key4Le_total (a b : String × String × String × String) :
    key4Le a b = true ∨ key4Le b a = true := by
  unfold key4Le
  by_cases h1 : a.1 = b.1
  · rw [if_pos h1, if_pos h1.symm]
    by_cases h2 : a.2.1 = b.2.1
    · rw [if_pos h2, if_pos h2.symm]
      by_cases h3 : a.2.2.1 = b.2.2.1
      · rw [if_pos h3, if_pos h3.symm]
        exact strLeB_total _ _
      · rw [if_neg h3, if_neg (Ne.symm h3)]
        exact strLeB_total _ _
    · rw [if_neg h2, if_neg (Ne.symm h2)]
      exact strLeB_total _ _
  · rw [if_neg h1, if_neg (Ne.symm h1)]
    exact strLeB_total _ _

theorem lex_if_trans {x y z : String} {rx ry rz : Bool}
    (hstep : rx = true → ry = true → rz = true)
    (h1 : (if x = y then rx else strLeB x.toList y.toList) = true)
    (h2 : (if y = z then ry else strLeB y.toList z.toList) = true) :
    (if x = z then rz else strLeB x.toList z.toList) = true := by
  by_cases hxy : x = y
  · subst hxy
    by_cases hyz : x = z
    · subst hyz
      rw [if_pos rfl] at h1 h2 ⊢
      exact hstep h1 h2
    · rw [if_pos rfl] at h1
      rw [if_neg hyz] at h2 ⊢
      exact h2
  · by_cases hyz : y = z
    · subst hyz
      rw [if_neg hxy] at h1 ⊢
      exact h1
    · rw [if_neg hxy] at h1
      rw [if_neg hyz] at h2
      by_cases hxz : x = z
      · subst hxz
        exact absurd (string_eq_of_toList_eq (strLeB_antisymm h1 h2)) hxy
      · rw [if_neg hxz]
        exact strLeB_trans h1 h2

theorem key4Le_trans {a b c : String × String × String × String}
    (h1 : key4Le a b = true) (h2 : key4Le b c = true) : key4Le a c = true := by
  unfold key4Le at h1 h2 ⊢
  exact lex_if_trans
    (fun u1 u2 => lex_if_trans
      (fun v1 v2 => lex_if_trans (fun w1 w2 => strLeB_trans w1 w2) v1 v2) u1 u2) h1 h2

instance : IsTotal Group groupOrder :=
  ⟨fun g h => key4Le_total (key4 g) (key4 h)⟩

instance : IsTrans Group groupOrder :=
  ⟨fun _ _ _ h1 h2 => key4Le_trans h1 h2⟩

/-! ## The facts every successful parse satisfies -/

theorem parse_ok_facts {rj : String → Except String Metadata}
    {b0 : List (String × List ℚ)} {walk : List DirEntry} {gs : List Group}
    (h : parse_bids_directory rj b0 walk = .ok gs) :
    (gs.map keyOf).Nodup ∧ (∀ g ∈ gs, elemInv g) ∧ List.Sorted groupOrder gs := by
  unfold parse_bids_directory at h
  split at h
  next st hst =>
    simp only [Except.ok.injEq] at h
    subst h
    have hinv := stInv_walk hst
    have hkeys : ((resolveDerivatives st.groups st.temp).map keyOf).Nodup := by
      rw [resolveDerivatives_map_keyOf]
      exact hinv.1
    have helems := resolveDerivatives_elems st.temp st.groups hinv.2
    have hkeysF :
        (((resolveDerivatives st.groups st.temp).filter keepGroup).map keyOf).Nodup :=
      List.Nodup.sublist (List.Sublist.map keyOf (List.filter_sublist _)) hkeys
    refine ⟨?_, ?_, List.sorted_insertionSort groupOrder _⟩
    · have hperm :=
        (List.perm_insertionSort groupOrder
          ((resolveDerivatives st.groups st.temp).filter keepGroup)).map keyOf
      exact hperm.nodup_iff.mpr hkeysF
    · intro g hg
      have hmem := (List.perm_insertionSort groupOrder _).mem_iff.mp hg
      exact helems g (List.mem_of_mem_filter hmem)
  next => cases h

/-- C7: the composite keys of the WorkUnits a successful parse returns are
pairwise distinct (two files with the same key are merged into the same
group, never duplicated), and the result is sorted by the composite key
with the empty string standing in for missing optional fields. -/
theorem C7_keys_unique_and_sorted (rj : String → Except String Metadata)
    (b0 : List (String × List ℚ)) (walk : List DirEntry) (gs : List Group)
    (h : parse_bids_directory rj b0 walk = .ok gs) :
    List.Pairwise (fun g1 g2 => keyOf g1 ≠ keyOf g2) gs ∧
      List.Sorted groupOrder gs := by
  obtain ⟨hnodup, _, hsorted⟩ := parse_ok_facts h
  exact ⟨List.pairwise_map.mp hnodup, hsorted⟩

/-- C7, witness. -/
theorem C7_keys_unique_and_sorted_witness :
    List.Pairwise (fun g1 g2 => keyOf g1 ≠ keyOf g2) [groupOne] ∧
      List.Sorted groupOrder [groupOne] :=
  C7_keys_unique_and_sorted rjValid [] walkOne [groupOne] (by decide)

/-! ## Theorems for C9 -/

theorem mfs_applyEcho (md : Metadata) (g : Group) :
    (applyEcho md g).MagneticFieldStrength = g.MagneticFieldStrength := by
  cases hET : md.EchoTime with
  | none => simp [applyEcho, hET]
  | some v =>
    simp only [applyEcho, hET]
    split_ifs <;> rfl

theorem mfs_applyB0 (md : Metadata) (g : Group) :
    (applyB0 md g).MagneticFieldStrength = g.MagneticFieldStrength := by
  unfold applyB0
  cases md.B0_direction <;> cases md.B0_dir <;> rfl

theorem mfs_applyMFS (md : Metadata) (g : Group) :
    (applyMFS md g).MagneticFieldStrength =
      if g.MagneticFieldStrength = none then md.MagneticFieldStrength
      else g.MagneticFieldStrength := by
  unfold applyMFS
  split_ifs with h1 <;> rfl

theorem mfs_applyMeta (md : Metadata) (g : Group) :
    (applyMeta md g).MagneticFieldStrength =
      if g.MagneticFieldStrength = none then md.MagneticFieldStrength
      else g.MagneticFieldStrength := by
  unfold applyMeta
  rw [mfs_applyB0, mfs_applyMFS, mfs_applyEcho]

theorem foldl_applyMeta_mfs_stays {v : ℚ} :
    ∀ (mds : List Metadata) (g : Group), g.MagneticFieldStrength = some v →
      (mds.foldl (fun g' md => applyMeta md g') g).MagneticFieldStrength = some v := by
  intro mds
  induction mds with
  | nil => intro g h; exact h
  | cons md t ih =>
    intro g h
    rw [List.foldl_cons]
    exact ih _ (by rw [mfs_applyMeta, h]; simp)

theorem foldl_applyMeta_mfs_firstSome :
    ∀ (mds : List Metadata) (g : Group), g.MagneticFieldStrength = none →
      (mds.foldl (fun g' md => applyMeta md g') g).MagneticFieldStrength =
        firstSome (mds.map Metadata.MagneticFieldStrength) := by
  intro mds
  induction mds with
  | nil => intro g h; exact h
  | cons md t ih =>
    intro g h
    rw [List.foldl_cons, List.map_cons]
    cases hmd : md.MagneticFieldStrength with
    | none =>
      rw [show firstSome (none :: t.map Metadata.MagneticFieldStrength) =
        firstSome (t.map Metadata.MagneticFieldStrength) from rfl]
      exact ih _ (by rw [mfs_applyMeta, h, if_pos rfl]; exact hmd)
    | some v =>
      rw [show firstSome (some v :: t.map Metadata.MagneticFieldStrength) =
        some v from rfl]
      exact foldl_applyMeta_mfs_stays t _ (by rw [mfs_applyMeta, h, if_pos rfl]; exact hmd)

/-- C9: in every group a successful parse returns, the echo times are a
deduplicated list sorted ascending; and the sidecar update function keeps
the first non-null MagneticFieldStrength: folding it over any sidecar
sequence from an unset field yields exactly the first non-null value, so
later non-null values never overwrite it. -/
theorem C9_echo_sorted_fieldstrength_first (rj : String → Except String Metadata)
    (b0 : List (String × List ℚ)) (walk : List DirEntry) (gs : List Group)
    (h : parse_bids_directory rj b0 walk = .ok gs) :
    (∀ g ∈ gs, List.Sorted (· ≤ ·) g.EchoTime ∧ g.EchoTime.Nodup) ∧
    (∀ (g : Group), g.MagneticFieldStrength = none → ∀ (mds : List Metadata),
      (mds.foldl (fun g' md => applyMeta md g') g).MagneticFieldStrength =
        firstSome (mds.map Metadata.MagneticFieldStrength)) := by
  refine ⟨fun g hg => ⟨((parse_ok_facts h).2.1 g hg).1, ((parse_ok_facts h).2.1 g hg).2.1⟩, ?_⟩
  intro g hmfs mds
  exact foldl_applyMeta_mfs_firstSome mds g hmfs

/-- C9, witness: instantiated at the one-file walk's group and at a
two-sidecar sequence whose field strengths are 3 then 7, where the first
value wins. -/
theorem C9_echo_sorted_fieldstrength_first_witness :
    (List.Sorted (· ≤ ·) groupOne.EchoTime ∧ groupOne.EchoTime.Nodup) ∧
    (([{ MagneticFieldStrength := some 3 }, { MagneticFieldStrength := some 7 }] :
        List Metadata).foldl (fun g' md => applyMeta md g') groupOne).MagneticFieldStrength =
      firstSome (([{ MagneticFieldStrength := some 3 },
        { MagneticFieldStrength := some 7 }] :
        List Metadata).map Metadata.MagneticFieldStrength) := by
  have h := C9_echo_sorted_fieldstrength_first rjValid [] walkOne [groupOne] (by decide)
  exact ⟨h.1 groupOne (by decide), h.2 groupOne (by decide) _⟩

/-! ## Theorems for C10 -/

/-- C10, counterexample: the file carries the token run-1 and no acq token,
yet the group's Acquisition is ab_y, not the run label 1: the greedy capture
of the combined acquisition-or-run pattern extends past an earlier run-
shaped token, so Acquisition can differ from the run label. -/
theorem C10_counterexample :
    (parse_bids_directory rjValid [] walkGreedy).map
      (List.map (fun g => (g.Acquisition, g.Run))) = .ok [(some "ab_y", some "1")] ∧
    (some "ab_y" : Option String) ≠ some "1" := by decide

/-- C10, amended: because the run token also matches the acquisition
extraction pattern, a successful parse never returns a WorkUnit whose Run is
present but whose Acquisition is absent; the acquisition equals the run
label for standard names where the run token is the first match and the
capture stops at its digits, but other underscore tokens can make the
greedy capture differ from the run label. -/
theorem C10_run_implies_acquisition (rj : String → Except String Metadata)
    (b0 : List (String × List ℚ)) (walk : List DirEntry) (gs : List Group)
    (h : parse_bids_directory rj b0 walk = .ok gs) :
    ∀ g ∈ gs, g.Run.isSome → g.Acquisition.isSome :=
  fun g hg => ((parse_ok_facts h).2.1 g hg).2.2

/-- C10, amended, witness: the greedy group has a run and indeed also an
acquisition. -/
theorem C10_run_implies_acquisition_witness :
    groupGreedy.Acquisition.isSome = true :=
  C10_run_implies_acquisition rjValid [] walkGreedy [groupGreedy] (by decide)
    groupGreedy (by decide) (by decide)

/-! ## Theorems for C8 -/

/-- C8: configuration errors are fatal before any execution starts.
setup_environment runs before any work unit in main, and it raises
FileNotFoundError when main.sh is missing, and ValueError when the selected
apptainer backend resolves an empty (unspecified) image, so the flow
returns the error and executes no work unit: the error value carries no
outcome list, hence no container, VM or process was launched. -/
theorem C8_config_errors_abort (engine work algo : String)
    (units : List (InputDict × Int × List String)) (content : String)
    (cfg : AlgoConfig) (hparse : parseDirectives content = .ok cfg)
    (himg : cfg.apptainer_image = "") :
    main_docker none engine work algo units = .error "main.sh does not exist." ∧
    main_docker (some content) "apptainer" work algo units =
      .error "Apptainer image is not specified in the algorithm script." := by
  constructor
  · rfl
  · have hset : setup_environment (some content) "apptainer" =
        .error "Apptainer image is not specified in the algorithm script." := by
      simp only [setup_environment, hparse]
      rw [if_pos ⟨by trivial, by rw [himg]; decide⟩]
    simp only [main_docker, hset]

/-- C8, witness: a missing script and an empty-image directive each make
the flow abort with the configuration error. -/
theorem C8_config_errors_abort_witness :
    main_docker none "docker" "work" "algoX" [] = .error "main.sh does not exist." ∧
    main_docker (some mainShEmptyImage) "apptainer" "work" "algoX" [] =
      .error "Apptainer image is not specified in the algorithm script." :=
  C8_config_errors_abort "docker" "work" "algoX" [] mainShEmptyImage cfgEmptyImage
    (by decide) (by decide)

/-! ## Theorems for C4 -/

/-- C4, counterexample: a subject with three run WorkUnits carrying raw
payload (one magnitude volume each) and a subject-level mask derivative
with no disambiguator, where the acquisition token sim is not numeric: the
code takes the exact-match branch of lines 207-225, the undismbiguated
derivative matches no group, and the mask is attached to zero WorkUnits
instead of all three (nothing lands in any Derivatives either), so the
universal claim is false of the code. -/
theorem C4_counterexample :
    (parse_bids_directory rjValid [] walkSim).map
        (List.map (fun g => (g.Acquisition, g.Run, g.mag_nii.length, g.mask,
          g.Derivatives))) =
      .ok [(some "sim", some "1", 1, none, []),
           (some "sim", some "2", 1, none, []),
           (some "sim", some "3", 1, none, [])] ∧
    searchDerivType "sub-1_mask.nii.gz" = some "mask" := by decide

/-- C4, amended: derivative attachment follows the numeric-acquisition
heuristic of parse_bids.py lines 183-225.  When the three runs of a
subject carry numeric acquisition labels (what run-only filenames produce),
a subject-level mask with no disambiguator broadcasts to every run's mask
field while being recorded under the first run's Derivatives, and a
non-mask derivative is recorded under the first run only with no mask set;
when the acquisition labels are not numeric, a derivative with no
disambiguator matches no WorkUnit and the groups are returned unchanged. -/
theorem C4_mask_broadcast (s sw mp p1 p2 p3 : String) :
    ((resolveDerivatives
        [runGroup s p1 "1", runGroup s p2 "2", runGroup s p3 "3"]
        [(s, [subjDeriv sw "mask" mp])]).map Group.mask =
      [some mp, some mp, some mp] ∧
     (resolveDerivatives
        [runGroup s p1 "1", runGroup s p2 "2", runGroup s p3 "3"]
        [(s, [subjDeriv sw "mask" mp])]).map Group.Derivatives =
      [[(sw, [("mask", [mp])])], [], []]) ∧
    (∀ t : String, t ≠ "mask" →
      (resolveDerivatives
          [runGroup s p1 "1", runGroup s p2 "2", runGroup s p3 "3"]
          [(s, [subjDeriv sw t mp])]).map Group.mask = [none, none, none] ∧
      (resolveDerivatives
          [runGroup s p1 "1", runGroup s p2 "2", runGroup s p3 "3"]
          [(s, [subjDeriv sw t mp])]).map Group.Derivatives =
        [[(sw, [(t, [mp])])], [], []]) ∧
    (∀ a : String, pyIsDigit a = false → ∀ t : String,
      resolveDerivatives
          [acqRunGroup s p1 a "1", acqRunGroup s p2 a "2", acqRunGroup s p3 a "3"]
          [(s, [subjDeriv sw t mp])] =
        [acqRunGroup s p1 a "1", acqRunGroup s p2 a "2", acqRunGroup s p3 a "3"]) := by
  have h1 : pyIsDigit "1" = true := by decide
  have h2 : pyIsDigit "2" = true := by decide
  have h3 : pyIsDigit "3" = true := by decide
  have d1 : digitsToNat "1" = 1 := by decide
  have d2 : digitsToNat "2" = 2 := by decide
  have d3 : digitsToNat "3" = 3 := by decide
  refine ⟨⟨?_, ?_⟩, fun t ht => ⟨?_, ?_⟩, fun a ha t => ?_⟩
  · simp [resolveDerivatives, resolveOne, runGroup, subjDeriv, enumIdx,
      sortByAcq, acqKeyNum, h1, h2, h3, d1, d2, d3, updAt, addDerivToGroup,
      addSwDeriv, addTypePath, appendNew, setMask]
  · simp [resolveDerivatives, resolveOne, runGroup, subjDeriv, enumIdx,
      sortByAcq, acqKeyNum, h1, h2, h3, d1, d2, d3, updAt, addDerivToGroup,
      addSwDeriv, addTypePath, appendNew, setMask]
  · simp [resolveDerivatives, resolveOne, runGroup, subjDeriv, enumIdx,
      sortByAcq, acqKeyNum, h1, h2, h3, d1, d2, d3, updAt, addDerivToGroup,
      addSwDeriv, addTypePath, appendNew, setMask, ht]
  · simp [resolveDerivatives, resolveOne, runGroup, subjDeriv, enumIdx,
      sortByAcq, acqKeyNum, h1, h2, h3, d1, d2, d3, updAt, addDerivToGroup,
      addSwDeriv, addTypePath, appendNew, setMask, ht]
  · simp [resolveDerivatives, resolveOne, acqRunGroup, subjDeriv, enumIdx,
      sortByAcq, acqKeyNum, ha, updAt, addDerivToGroup, addSwDeriv,
      addTypePath, appendNew, setMask]

/-- C4, amended, witness at concrete labels, with the non-mask kind Chimap
and the non-numeric acquisition sim. -/
theorem C4_mask_broadcast_witness :
    ((resolveDerivatives
        [runGroup "1" "a.nii" "1", runGroup "1" "b.nii" "2", runGroup "1" "c.nii" "3"]
        [("1", [subjDeriv "fsl" "mask" "m.nii.gz"])]).map Group.mask =
      [some "m.nii.gz", some "m.nii.gz", some "m.nii.gz"] ∧
     (resolveDerivatives
        [runGroup "1" "a.nii" "1", runGroup "1" "b.nii" "2", runGroup "1" "c.nii" "3"]
        [("1", [subjDeriv "fsl" "mask" "m.nii.gz"])]).map Group.Derivatives =
      [[("fsl", [("mask", ["m.nii.gz"])])], [], []]) ∧
    ((resolveDerivatives
        [runGroup "1" "a.nii" "1", runGroup "1" "b.nii" "2", runGroup "1" "c.nii" "3"]
        [("1", [subjDeriv "fsl" "Chimap" "m.nii.gz"])]).map Group.mask =
      [none, none, none] ∧
     (resolveDerivatives
        [runGroup "1" "a.nii" "1", runGroup "1" "b.nii" "2", runGroup "1" "c.nii" "3"]
        [("1", [subjDeriv "fsl" "Chimap" "m.nii.gz"])]).map Group.Derivatives =
      [[("fsl", [("Chimap", ["m.nii.gz"])])], [], []]) ∧
    resolveDerivatives
        [acqRunGroup "1" "a.nii" "sim" "1", acqRunGroup "1" "b.nii" "sim" "2",
         acqRunGroup "1" "c.nii" "sim" "3"]
        [("1", [subjDeriv "fsl" "mask" "m.nii.gz"])] =
      [acqRunGroup "1" "a.nii" "sim" "1", acqRunGroup "1" "b.nii" "sim" "2",
       acqRunGroup "1" "c.nii" "sim" "3"] := by
  have h := C4_mask_broadcast "1" "fsl" "m.nii.gz" "a.nii" "b.nii" "c.nii"
  exact ⟨h.1, h.2.1 "Chimap" (by decide), h.2.2 "sim" (by decide) "mask"⟩

end QSMCI
